import Mathlib

/-!
Verification of the Sedma berie tri card-game server core.

The definitions below are a shallow embedding of `game_logic.py` and the
game-relevant parts of `server.py`:
* `Game` mirrors the `Game` class: per-seat hands, draw pile (head = next
  card popped by `popleft`), discard pile (last element = tail = the active
  card), and the current-player index.
* Python's `random.shuffle` is modelled by an explicit `shuffle` parameter;
  theorems assume only that it preserves length.
* `deque.extendleft`, `deque.popleft`, `list.pop(i)` and negative-index
  accesses are translated to their `List` equivalents.
-/

set_option maxHeartbeats 1000000

namespace Sedma

inductive Suit
  | hearts | diamonds | clubs | spades
deriving DecidableEq, Repr

/-- A playing card, as in `card.py` (the `name` string and pygame image are
presentation-only and carry no game information). -/
structure Card where
  value : Nat
  suit : Suit
deriving DecidableEq, Repr

instance : Inhabited Card := ⟨⟨0, Suit.hearts⟩⟩

/-- The mutable state of `Game` in `game_logic.py`. -/
structure Game where
  num_players : Nat
  players : List (List Card)
  draw_pile : List Card
  discard_pile : List Card
  current_player : Nat
deriving DecidableEq, Repr

/-- `Game.__init__(num_players)`: `max(2, int(num_players))` seats, all hands
empty, both piles empty, current player 0. -/
def mkGame (n : Int) : Game :=
  { num_players := (max 2 n).toNat
    players := List.replicate (max 2 n).toNat []
    draw_pile := []
    discard_pile := []
    current_player := 0 }

def suitsOrder : List Suit := [Suit.hearts, Suit.diamonds, Suit.clubs, Suit.spades]

/-- `list(range(7, 15))`. -/
def deckValues : List Nat := [7, 8, 9, 10, 11, 12, 13, 14]

/-- The 32-card deck in the insertion order of `Game._card_cache`
(suit-major, then value). -/
def freshDeck : List Card :=
  suitsOrder.flatMap fun s => deckValues.map fun v => ⟨v, s⟩

/-- `Game.create_deck`: replaces the draw pile with the shuffled full deck. -/
def create_deck (shuffle : List Card → List Card) (g : Game) : Game :=
  { g with draw_pile := shuffle freshDeck }

/-- One pass of the inner loop of `Game.deal_cards`: each seat in order takes
the head of the pile if the pile is non-empty. -/
def dealOnce : List (List Card) → List Card → List (List Card) × List Card
  | [], pile => ([], pile)
  | h :: rest, [] => (h :: rest, [])
  | h :: rest, c :: pile =>
    let r := dealOnce rest pile
    ((h ++ [c]) :: r.1, r.2)

def dealRound (g : Game) : Game :=
  let r := dealOnce g.players g.draw_pile
  { g with players := r.1, draw_pile := r.2 }

/-- `Game.deal_cards`: five round-robin passes, then one card to the discard
pile if any card remains. -/
def deal_cards (g : Game) : Game :=
  let g5 := dealRound (dealRound (dealRound (dealRound (dealRound g))))
  match g5.draw_pile with
  | [] => g5
  | c :: rest => { g5 with draw_pile := rest, discard_pile := g5.discard_pile ++ [c] }

/-- The hand of seat `i` (`self.players[i]`; `[]` when out of range). -/
def handOf (g : Game) (i : Nat) : List Card := g.players.getD i []

/-- `Game._refresh_draw_pile`: no-op when `len(discard_pile) <= 1`, otherwise
the discard pile minus its tail card is shuffled into a fresh draw pile and
the discard pile keeps only the tail (active) card. -/
def refreshDrawPile (shuffle : List Card → List Card) (g : Game) : Game :=
  if g.discard_pile.length ≤ 1 then g
  else
    { g with draw_pile := shuffle g.discard_pile.dropLast
             discard_pile := [g.discard_pile.getLastD default] }

/-- The loop body of `Game._get_next_active_player`, with explicit fuel for
the `for _ in range(self.num_players)` bound. -/
def nextActiveAux (g : Game) : Nat → Nat → Nat
  | next, 0 => next
  | next, Nat.succ k =>
    if g.players.getD next [] ≠ [] then next
    else nextActiveAux g ((next + 1) % g.num_players) k

/-- `Game._get_next_active_player`: scan circularly from the seat after
`current_player` for the first seat with a non-empty hand; after a full
fruitless cycle, the scan position (the seat after `current_player`) is
returned unchanged. -/
def get_next_active_player (g : Game) : Nat :=
  nextActiveAux g ((g.current_player + 1) % g.num_players) g.num_players

/-- `Game.next_turn`. -/
def next_turn (g : Game) : Game :=
  { g with current_player := get_next_active_player g }

/-- The `for _ in range(3)` drawing loop of the rank-7 effect in
`Game.play_card`: each iteration refills an empty draw pile, then pops the
head card into seat `next`'s hand, or breaks if still empty. -/
def drawLoop (shuffle : List Card → List Card) (g : Game) (next : Nat) : Nat → Game
  | 0 => g
  | Nat.succ k =>
    let g1 := if g.draw_pile = [] then refreshDrawPile shuffle g else g
    match g1.draw_pile with
    | [] => g1
    | c :: rest =>
      drawLoop shuffle
        { g1 with players := g1.players.set next (g1.players.getD next [] ++ [c])
                  draw_pile := rest } next k

/-- The state after `self.discard_pile.append(self.players[i].pop(j))`. -/
def playMid (g : Game) (i j : Nat) : Game :=
  { g with players := g.players.set i ((g.players.getD i []).eraseIdx j)
           discard_pile := g.discard_pile ++ [(g.players.getD i []).getD j default] }

/-- The legality test of `Game.play_card`: the check is skipped when the
discard pile is empty, otherwise the card must match the tail card's suit or
value, or have the wild value 12. -/
def matchesTop (g : Game) (c : Card) : Bool :=
  match g.discard_pile.getLast? with
  | none => true
  | some top => c.suit == top.suit || c.value == top.value || c.value == 12

/-- `Game.play_card(player_index, card_index)`. Returns the Python boolean
result paired with the (possibly unchanged) state. Indices are `Int` because
the server passes `message.get("ci", -1)`; the bound check mirrors
`0 <= player_index < self.num_players and 0 <= card_index <
len(self.players[player_index])`, with `getD _ []` standing for the hand
lookup (total on the invariant-violating states Python would crash on). -/
def play_card (shuffle : List Card → List Card) (g : Game) (pi ci : Int) : Bool × Game :=
  if ¬ (0 ≤ pi ∧ pi < (g.num_players : Int) ∧ 0 ≤ ci ∧
        ci < (((g.players.getD pi.toNat []).length : Nat) : Int)) then
    (false, g)
  else
    let i := pi.toNat
    let j := ci.toNat
    let card := (g.players.getD i []).getD j default
    if ¬ matchesTop g card then (false, g)
    else
      let g1 := playMid g i j
      let g2 :=
        if card.value = 7 then
          let np := get_next_active_player g1
          let gDrawn := drawLoop shuffle g1 np 3
          { gDrawn with current_player := np }
        else if card.value = 14 then
          { g1 with current_player := get_next_active_player g1 }
        else g1
      let g3 := if g2.draw_pile = [] ∧ card.value ≠ 7 then refreshDrawPile shuffle g2 else g2
      (true, next_turn g3)

/-- The successful branch of `Game.play_card`, factored for the lemmas below:
the card moves to the discard tail, the rank-7 / rank-14 effects run, an
empty draw pile is refreshed (for non-7 plays), and the turn advances. -/
def playSuccState (shuffle : List Card → List Card) (g : Game) (i j : Nat) : Game :=
  let card := (g.players.getD i []).getD j default
  let g1 := playMid g i j
  let g2 :=
    if card.value = 7 then
      let np := get_next_active_player g1
      { drawLoop shuffle g1 np 3 with current_player := np }
    else if card.value = 14 then
      { g1 with current_player := get_next_active_player g1 }
    else g1
  let g3 := if g2.draw_pile = [] ∧ card.value ≠ 7 then refreshDrawPile shuffle g2 else g2
  next_turn g3

/-- `Game.draw_card(player_index)`. -/
def draw_card (shuffle : List Card → List Card) (g : Game) (pi : Int) : Bool × Game :=
  if ¬ (0 ≤ pi ∧ pi < (g.num_players : Int)) then (false, g)
  else
    let g1 := if g.draw_pile = [] then refreshDrawPile shuffle g else g
    match g1.draw_pile with
    | [] => (false, g1)
    | c :: rest =>
      (true, { g1 with players := g1.players.set pi.toNat (g1.players.getD pi.toNat [] ++ [c])
                       draw_pile := rest })

/-- `Game.check_game_over`: at most one seat has a non-empty hand. -/
def check_game_over (g : Game) : Bool :=
  decide ((g.players.countP fun h => !h.isEmpty) ≤ 1)

/-- Total number of cards across all hands and both piles. -/
def totalCards (g : Game) : Nat :=
  (g.players.map List.length).sum + g.draw_pile.length + g.discard_pile.length

/-! ### Server-side state (`server.py`) -/

/-- One row of the `results` list built by `RoomManager.end_game`. -/
structure ResultEntry where
  pid : Nat
  rank : Nat
  cards_left : Nat
  disconnected : Bool
deriving DecidableEq, Repr

instance : Inhabited ResultEntry := ⟨⟨0, 0, 0, false⟩⟩

/-- `results.append({..., "rank": len(results) + 1, ...})`: each `(pid,
cards_left)` row receives the next rank, starting from `r`. -/
def rankFrom (disc : List Nat) : Nat → List (Nat × Nat) → List ResultEntry
  | _, [] => []
  | r, (pid, cl) :: rest => ⟨pid, r, cl, disc.contains pid⟩ :: rankFrom disc (r + 1) rest

/-- The `remaining` list of `RoomManager.end_game` before sorting:
`(i, len(game.players[i]))` for the seats not in `finish_order`. -/
def remainingRows (fo : List Nat) (mp : Nat) (hands : List (List Card)) : List (Nat × Nat) :=
  ((List.range mp).filter fun i => ¬ fo.contains i).map fun i => (i, (hands.getD i []).length)

/-- `remaining.sort(key=lambda x: x[1])`: stable ascending sort on the
remaining card count. -/
def sortRows (rows : List (Nat × Nat)) : List (Nat × Nat) :=
  rows.mergeSort fun a b => a.2 ≤ b.2

/-- The `results` list computed by `RoomManager.end_game`: finishers in
`finish_order` with `cards_left = 0`, then the remaining seats sorted by
remaining hand size, ranks assigned in list order starting at 1. -/
def end_game_results (fo : List Nat) (mp : Nat) (hands : List (List Card))
    (disc : List Nat) : List ResultEntry :=
  rankFrom disc 1 ((fo.map fun pid => (pid, 0)) ++ sortRows (remainingRows fo mp hands))

/-- `next((i for i, p in enumerate(room.game.players) if not p), None)`:
the first seat index with an empty hand. -/
def firstEmptySeat : List (List Card) → Option Nat
  | [] => none
  | h :: t => if h.isEmpty then some 0 else (firstEmptySeat t).map (· + 1)

/-- The winner reported by `RoomManager.end_game`. -/
def end_game_winner (hands : List (List Card)) : Option Nat :=
  firstEmptySeat hands

/-- The game-state effect of `GameRoom.remove_player` (lines guarded by
`if self.game and self.game.players[i]`): the leaving seat's hand is pushed
card-by-card onto the head side of the discard pile (`deque.extendleft`, so
the hand arrives reversed at the head), the hand is cleared, the seat is
added to the `disconnected` set, and if the seat held the turn `next_turn()`
runs on the cleared state. When the seat's hand is empty nothing happens. -/
def removePlayerGame (g : Game) (i : Nat) (disc : List Nat) : Game × List Nat :=
  if handOf g i ≠ [] then
    let g1 : Game :=
      { g with discard_pile := (handOf g i).reverse ++ g.discard_pile
               players := g.players.set i [] }
    let disc' := if disc.contains i then disc else i :: disc
    let g2 := if g1.current_player = i then next_turn g1 else g1
    (g2, disc')
  else (g, disc)

/-- The reply `MessageHandler.handle_lobby_message` sends for a `set_name`
request. -/
inductive Reply
  | err (msg : List Char)
  | nameSet (nm : List Char)
deriving DecidableEq, Repr

/-- The server state a `set_name` request reads and writes:
`MultiRoomServer.client_names` (every currently-connected named socket,
in lobby or in a room) and `LobbyManager.clients`. -/
structure ServerSt where
  client_names : List (Nat × List Char)
  lobby_clients : List Nat
deriving DecidableEq, Repr

/-- Python dict assignment `client_names[sock] = name`. -/
def setAssoc (m : List (Nat × List Char)) (k : Nat) (v : List Char) : List (Nat × List Char) :=
  if m.any fun p => p.1 == k then m.map fun p => if p.1 == k then (k, v) else p
  else m ++ [(k, v)]

/-- `client_names.values()`. -/
def namesOf (m : List (Nat × List Char)) : List (List Char) := m.map Prod.snd

/-- Python `str.strip()`: drop leading and trailing whitespace. -/
def pyStrip (s : List Char) : List Char :=
  ((s.dropWhile Char.isWhitespace).reverse.dropWhile Char.isWhitespace).reverse

/-- The `set_name` branch of `MessageHandler.handle_lobby_message`: length
check on the stripped name, then uniqueness against the names of ALL
currently-connected named sockets (`self.server.client_names.values()`),
then record the name and reply `name_set`. -/
def handle_set_name (st : ServerSt) (sock : Nat) (raw : List Char) : ServerSt × Reply :=
  let nm := pyStrip raw
  if ¬ (3 ≤ nm.length ∧ nm.length ≤ 20) then
    (st, Reply.err "Name must be 3-20 characters long".toList)
  else if (namesOf st.client_names).contains nm then
    (st, Reply.err "Name already taken".toList)
  else
    ({ st with client_names := setAssoc st.client_names sock nm }, Reply.nameSet nm)

/-! ### Concrete example states used in counterexamples and witnesses -/

/-- A finished round: seat 0 still holds a matching card, seat 1 is empty. -/
def gameOverEx : Game :=
  ⟨2, [[⟨7, Suit.hearts⟩], []], [], [⟨7, Suit.diamonds⟩], 0⟩

/-- A finished round with a stocked draw pile. -/
def gameOverDrawEx : Game :=
  ⟨2, [[⟨7, Suit.hearts⟩], []], [⟨9, Suit.hearts⟩], [⟨7, Suit.diamonds⟩], 0⟩

/-- A mid-round two-player state where seat 0 can play a rank-7 card. -/
def sevenEx : Game :=
  ⟨2, [[⟨7, Suit.hearts⟩, ⟨8, Suit.hearts⟩], [⟨8, Suit.diamonds⟩]],
   [⟨9, Suit.hearts⟩, ⟨9, Suit.diamonds⟩, ⟨9, Suit.clubs⟩, ⟨10, Suit.hearts⟩],
   [⟨7, Suit.diamonds⟩], 0⟩

/-- A mid-round two-player state where seat 0 may draw. -/
def drawEx : Game :=
  ⟨2, [[⟨8, Suit.diamonds⟩], [⟨8, Suit.clubs⟩]], [⟨9, Suit.hearts⟩], [⟨7, Suit.diamonds⟩], 0⟩

/-- A mid-round three-player state where seat 0 can play a rank-14 card. -/
def fourteenEx : Game :=
  ⟨3, [[⟨14, Suit.hearts⟩, ⟨8, Suit.hearts⟩], [⟨8, Suit.diamonds⟩], [⟨9, Suit.clubs⟩]],
   [⟨10, Suit.hearts⟩], [⟨7, Suit.hearts⟩], 0⟩

/-- A round state whose seat 0 holds the turn with an empty hand. -/
def emptyHandEx : Game :=
  ⟨2, [[], [⟨8, Suit.hearts⟩]], [], [⟨7, Suit.hearts⟩], 0⟩

/-- A round state whose seat 0 holds the turn and one card. -/
def removeEx : Game :=
  ⟨2, [[⟨8, Suit.hearts⟩], [⟨9, Suit.clubs⟩]], [], [⟨7, Suit.diamonds⟩], 0⟩

/-- A lobby state in which connection 1 already holds the name "abc" but is
no longer in the lobby (it is inside a room), while connection 2 is in the
lobby and nameless. -/
def inRoomSt : ServerSt := ⟨[(1, "abc".toList)], [2]⟩


/-! ### Basic list lemmas -/

theorem getD_set_self {α : Type} (l : List α) (i : Nat) (x d : α) (h : i < l.length) :
    (l.set i x).getD i d = x := by
  induction l generalizing i with
  | nil => simp at h
  | cons a t ih =>
    cases i with
    | zero => simp [List.set, List.getD]
    | succ k => simpa [List.set, List.getD] using ih k (by simpa using h)

theorem getD_set_ne {α : Type} (l : List α) {i j : Nat} (x d : α) (h : i ≠ j) :
    (l.set i x).getD j d = l.getD j d := by
  induction l generalizing i j with
  | nil => simp [List.set]
  | cons a t ih =>
    cases i with
    | zero =>
      cases j with
      | zero => exact absurd rfl h
      | succ m => simp [List.set, List.getD]
    | succ k =>
      cases j with
      | zero => simp [List.set, List.getD]
      | succ m => simpa [List.set, List.getD] using ih (i := k) (j := m) (fun hh => h (by omega))

theorem set_getD_self {α : Type} (l : List α) (i : Nat) (d : α) (h : i < l.length) :
    l.set i (l.getD i d) = l := by
  induction l generalizing i with
  | nil => simp at h
  | cons a t ih =>
    cases i with
    | zero => simp [List.set, List.getD]
    | succ k => simpa [List.set, List.getD] using ih k (by simpa using h)

theorem sum_map_length_set (l : List (List Card)) (i : Nat) (x : List Card) (h : i < l.length) :
    (((l.set i x).map List.length).sum + (l.getD i []).length
      = (l.map List.length).sum + x.length) := by
  induction l generalizing i with
  | nil => simp at h
  | cons a t ih =>
    cases i with
    | zero => simp [List.set, List.getD]; omega
    | succ k =>
      have := ih k (by simpa using h)
      simp [List.set, List.getD] at this ⊢
      omega

theorem getD_map_of_lt {α β : Type} (f : α → β) (l : List α) (k : Nat) (d : α)
    (h : k < l.length) : ((l.map f).getD k (f d)) = f (l.getD k d) := by
  induction l generalizing k with
  | nil => simp at h
  | cons a t ih =>
    cases k with
    | zero => simp [List.getD]
    | succ m => simpa [List.getD] using ih m (by simpa using h)

theorem getD_append_left {α : Type} (l₁ l₂ : List α) (k : Nat) (d : α) (h : k < l₁.length) :
    (l₁ ++ l₂).getD k d = l₁.getD k d := by
  induction l₁ generalizing k with
  | nil => simp at h
  | cons a t ih =>
    cases k with
    | zero => simp [List.getD]
    | succ m => simpa [List.getD] using ih m (by simpa using h)

/-! ### Lemmas about `refreshDrawPile` -/

theorem refresh_players (s : List Card → List Card) (g : Game) :
    (refreshDrawPile s g).players = g.players := by
  unfold refreshDrawPile; split <;> rfl

theorem refresh_num (s : List Card → List Card) (g : Game) :
    (refreshDrawPile s g).num_players = g.num_players := by
  unfold refreshDrawPile; split <;> rfl

theorem refresh_current (s : List Card → List Card) (g : Game) :
    (refreshDrawPile s g).current_player = g.current_player := by
  unfold refreshDrawPile; split <;> rfl

theorem refresh_noop (s : List Card → List Card) (g : Game)
    (h : g.discard_pile.length ≤ 1) : refreshDrawPile s g = g := by
  unfold refreshDrawPile; simp [h]

theorem refresh_total (s : List Card → List Card) (hlen : ∀ l, (s l).length = l.length)
    (g : Game) (hd : g.draw_pile = []) : totalCards (refreshDrawPile s g) = totalCards g := by
  unfold refreshDrawPile
  split
  · rfl
  · rename_i h
    have h2 : 2 ≤ g.discard_pile.length := by omega
    simp [totalCards, hlen, hd, List.length_dropLast]
    omega

theorem refresh_pile_sum (s : List Card → List Card) (hlen : ∀ l, (s l).length = l.length)
    (g : Game) (hd : g.draw_pile = []) :
    (refreshDrawPile s g).draw_pile.length + (refreshDrawPile s g).discard_pile.length
      = g.draw_pile.length + g.discard_pile.length := by
  unfold refreshDrawPile
  split
  · rfl
  · rename_i h
    simp [hlen, hd, List.length_dropLast]
    omega

theorem refresh_discard_ne (s : List Card → List Card) (g : Game)
    (h : g.discard_pile ≠ []) : (refreshDrawPile s g).discard_pile ≠ [] := by
  unfold refreshDrawPile
  split
  · exact h
  · simp

/-- When the pile to refresh from is big enough, the refreshed draw pile holds
all discard cards but the kept tail card. -/
theorem refresh_lengths (s : List Card → List Card) (hlen : ∀ l, (s l).length = l.length)
    (g : Game) (h : 2 ≤ g.discard_pile.length) :
    (refreshDrawPile s g).draw_pile.length = g.discard_pile.length - 1 ∧
      (refreshDrawPile s g).discard_pile.length = 1 := by
  unfold refreshDrawPile
  rw [if_neg (by omega)]
  simp [hlen, List.length_dropLast]

/-! ### Lemmas about `get_next_active_player` -/

theorem nextActiveAux_lt (g : Game) (hnp : 0 < g.num_players) :
    ∀ (fuel next : Nat), next < g.num_players → nextActiveAux g next fuel < g.num_players := by
  intro fuel
  induction fuel with
  | zero => intro next h; simpa [nextActiveAux] using h
  | succ k ih =>
    intro next h
    unfold nextActiveAux
    split
    · exact h
    · exact ih _ (Nat.mod_lt _ hnp)

theorem get_next_active_player_lt (g : Game) (hnp : 0 < g.num_players) :
    get_next_active_player g < g.num_players :=
  nextActiveAux_lt g hnp _ _ (Nat.mod_lt _ hnp)

/-- The scan of `_get_next_active_player` returns a seat with a non-empty
hand as soon as one of the scanned positions has one. -/
theorem nextActiveAux_nonempty (g : Game) (hnp : 0 < g.num_players) :
    ∀ (fuel next : Nat), next < g.num_players →
      (∃ m, m < fuel ∧ g.players.getD ((next + m) % g.num_players) [] ≠ []) →
      g.players.getD (nextActiveAux g next fuel) [] ≠ [] := by
  intro fuel
  induction fuel with
  | zero =>
    intro next _ ⟨m, hm, _⟩
    omega
  | succ k ih =>
    intro next hlt ⟨m, hm, hne⟩
    unfold nextActiveAux
    split
    · assumption
    · rename_i hempty
      apply ih _ (Nat.mod_lt _ hnp)
      have hm0 : m ≠ 0 := by
        intro h0
        apply hempty
        simpa [h0, Nat.mod_eq_of_lt hlt] using hne
      refine ⟨m - 1, by omega, ?_⟩
      have harith : ((next + 1) % g.num_players + (m - 1)) % g.num_players
          = (next + m) % g.num_players := by
        rw [Nat.mod_add_mod]
        congr 1
        omega
      rwa [harith]

/-- If some seat has a non-empty hand, `_get_next_active_player` lands on a
seat with a non-empty hand. -/
theorem get_next_active_nonempty (g : Game) (hnp : 0 < g.num_players)
    (hex : ∃ t, t < g.num_players ∧ g.players.getD t [] ≠ []) :
    g.players.getD (get_next_active_player g) [] ≠ [] := by
  obtain ⟨t, ht, hne⟩ := hex
  apply nextActiveAux_nonempty g hnp _ _ (Nat.mod_lt _ hnp)
  set start := (g.current_player + 1) % g.num_players with hstart
  have hstartlt : start < g.num_players := Nat.mod_lt _ hnp
  by_cases hc : start ≤ t
  · exact ⟨t - start, by omega, by
      rwa [show (start + (t - start)) % g.num_players = t by
        rw [show start + (t - start) = t by omega, Nat.mod_eq_of_lt ht]]⟩
  · exact ⟨g.num_players - start + t, by omega, by
      rwa [show (start + (g.num_players - start + t)) % g.num_players = t by
        rw [show start + (g.num_players - start + t) = g.num_players + t by omega,
          Nat.add_mod_left, Nat.mod_eq_of_lt ht]]⟩

/-- `_get_next_active_player` reads only the hands, seat count and current
player. -/
theorem nextActive_congr (g₁ g₂ : Game) (hp : g₁.players = g₂.players)
    (hn : g₁.num_players = g₂.num_players) (hc : g₁.current_player = g₂.current_player) :
    get_next_active_player g₁ = get_next_active_player g₂ := by
  have haux : ∀ fuel next, nextActiveAux g₁ next fuel = nextActiveAux g₂ next fuel := by
    intro fuel
    induction fuel with
    | zero => intro next; rfl
    | succ k ih =>
      intro next
      unfold nextActiveAux
      rw [hp, hn]
      split
      · rfl
      · exact ih _
  unfold get_next_active_player
  rw [hc, hn, haux]

/-! ### Lemmas about the rank-7 drawing loop -/

theorem drawLoop_succ_pop (s : List Card → List Card) (g g1 : Game) (next k : Nat)
    (c : Card) (rest : List Card)
    (hg1 : g1 = if g.draw_pile = [] then refreshDrawPile s g else g)
    (h1 : g1.draw_pile = c :: rest) :
    drawLoop s g next (k + 1) = drawLoop s
      { g1 with players := g1.players.set next (g1.players.getD next [] ++ [c])
                draw_pile := rest } next k := by
  subst hg1
  conv_lhs => unfold drawLoop
  split <;> rename_i hif <;> simp only [hif, ite_true, ite_false] at h1 ⊢ <;>
    split <;> rename_i heq <;>
    first
      | (rename_i c' rest'
         obtain ⟨hc, hr⟩ := List.cons.inj (heq.symm.trans h1)
         subst hc; subst hr
         rfl)
      | exact absurd (heq.symm.trans h1) (by simp)

theorem drawLoop_succ_stuck (s : List Card → List Card) (g : Game) (next k : Nat)
    (h1 : (if g.draw_pile = [] then refreshDrawPile s g else g).draw_pile = []) :
    drawLoop s g next (k + 1) = if g.draw_pile = [] then refreshDrawPile s g else g := by
  conv_lhs => unfold drawLoop
  split <;> rename_i hif <;> simp only [hif, ite_true, ite_false] at h1 ⊢ <;>
    split <;> rename_i heq <;>
    first
      | rfl
      | exact absurd (h1.symm.trans heq) (by simp)

/-- The refill-if-empty step shared by `draw_card` and the rank-7 loop leaves
the hands, the seat count and the current player alone. -/
theorem refillIfEmpty_frame (s : List Card → List Card) (g : Game) :
    (if g.draw_pile = [] then refreshDrawPile s g else g).players = g.players ∧
    (if g.draw_pile = [] then refreshDrawPile s g else g).num_players = g.num_players ∧
    (if g.draw_pile = [] then refreshDrawPile s g else g).current_player = g.current_player ∧
    (g.discard_pile ≠ [] →
      (if g.draw_pile = [] then refreshDrawPile s g else g).discard_pile ≠ []) := by
  split
  · exact ⟨refresh_players s g, refresh_num s g, refresh_current s g,
      fun h => refresh_discard_ne s g h⟩
  · exact ⟨rfl, rfl, rfl, fun h => h⟩

/-- The refill-if-empty step moves cards between the two piles only. -/
theorem refillIfEmpty_sum (s : List Card → List Card) (hlen : ∀ l, (s l).length = l.length)
    (g : Game) :
    (if g.draw_pile = [] then refreshDrawPile s g else g).draw_pile.length +
      (if g.draw_pile = [] then refreshDrawPile s g else g).discard_pile.length
    = g.draw_pile.length + g.discard_pile.length := by
  split
  · rename_i h; exact refresh_pile_sum s hlen g h
  · rfl

/-- A stuck refill (the draw pile still empty afterwards) means nothing
changed at all: the draw pile was empty and the discard pile too small. -/
theorem refillIfEmpty_stuck (s : List Card → List Card)
    (hlen : ∀ l, (s l).length = l.length) (g : Game)
    (h : (if g.draw_pile = [] then refreshDrawPile s g else g).draw_pile = []) :
    (if g.draw_pile = [] then refreshDrawPile s g else g) = g ∧
      g.draw_pile = [] ∧ g.discard_pile.length ≤ 1 := by
  by_cases hd : g.draw_pile = []
  · rw [if_pos hd] at h ⊢
    by_cases hsmall : g.discard_pile.length ≤ 1
    · exact ⟨refresh_noop s g hsmall, hd, hsmall⟩
    · exfalso
      obtain ⟨hrd, _⟩ := refresh_lengths s hlen g (by omega)
      rw [h] at hrd
      simp at hrd
      omega
  · rw [if_neg hd] at h
    exact absurd h hd

theorem drawLoop_frame (s : List Card → List Card) (next : Nat) :
    ∀ (k : Nat) (g : Game),
      (drawLoop s g next k).num_players = g.num_players ∧
      (drawLoop s g next k).current_player = g.current_player ∧
      (drawLoop s g next k).players.length = g.players.length ∧
      (g.discard_pile ≠ [] → (drawLoop s g next k).discard_pile ≠ []) := by
  intro k
  induction k with
  | zero => intro g; exact ⟨rfl, rfl, rfl, fun h => h⟩
  | succ m ih =>
    intro g
    obtain ⟨hfp, hfn, hfc, hfd⟩ := refillIfEmpty_frame s g
    cases hgd : (if g.draw_pile = [] then refreshDrawPile s g else g).draw_pile with
    | nil =>
      rw [drawLoop_succ_stuck s g next m hgd]
      exact ⟨hfn, hfc, by rw [hfp], hfd⟩
    | cons c rest =>
      rw [drawLoop_succ_pop s g _ next m c rest rfl hgd]
      obtain ⟨h1, h2, h3, h4⟩ := ih
        { (if g.draw_pile = [] then refreshDrawPile s g else g) with
          players := (if g.draw_pile = [] then refreshDrawPile s g else g).players.set next
            ((if g.draw_pile = [] then refreshDrawPile s g else g).players.getD next [] ++ [c])
          draw_pile := rest }
      refine ⟨by rw [h1]; exact hfn, by rw [h2]; exact hfc, ?_, fun h => h4 (hfd h)⟩
      rw [h3]
      simp [hfp]

/-- The rank-7 drawing loop appends to seat `next`'s hand exactly
`min fuel (draw + discard - 1)` cards: the draw pile plus, via the mid-loop
refill, every discard card except the active one. -/
theorem drawLoop_spec (s : List Card → List Card) (hlen : ∀ l, (s l).length = l.length)
    (next : Nat) :
    ∀ (k : Nat) (g : Game), next < g.players.length → g.discard_pile ≠ [] →
      ∃ drawn : List Card,
        (drawLoop s g next k).players = g.players.set next (g.players.getD next [] ++ drawn) ∧
        drawn.length = min k (g.draw_pile.length + g.discard_pile.length - 1) := by
  intro k
  induction k with
  | zero =>
    intro g hn _
    exact ⟨[], by simpa using (set_getD_self g.players next [] hn).symm, by simp⟩
  | succ m ih =>
    intro g hn hd
    have hdlen : 1 ≤ g.discard_pile.length := List.length_pos.mpr hd
    obtain ⟨hfp, hfn, hfc, hfd⟩ := refillIfEmpty_frame s g
    have hfsum := refillIfEmpty_sum s hlen g
    cases hgd : (if g.draw_pile = [] then refreshDrawPile s g else g).draw_pile with
    | nil =>
      rw [drawLoop_succ_stuck s g next m hgd]
      obtain ⟨heq, hde, hsmall⟩ := refillIfEmpty_stuck s hlen g hgd
      rw [heq]
      refine ⟨[], by simpa using (set_getD_self g.players next [] hn).symm, ?_⟩
      rw [hde]
      simp
      omega
    | cons c rest =>
      rw [drawLoop_succ_pop s g _ next m c rest rfl hgd]
      set g1 := if g.draw_pile = [] then refreshDrawPile s g else g with hg1
      set g2 : Game :=
        { g1 with players := g1.players.set next (g1.players.getD next [] ++ [c])
                  draw_pile := rest } with hg2
      have hn2 : next < g2.players.length := by
        simp only [hg2]
        rw [List.length_set, hfp]
        exact hn
      have hd2 : g2.discard_pile ≠ [] := hfd hd
      obtain ⟨drawn', hp', hl'⟩ := ih g2 hn2 hd2
      refine ⟨c :: drawn', ?_, ?_⟩
      · rw [hp']
        simp only [hg2, hfp]
        rw [getD_set_self _ _ _ _ hn, List.set_set, List.append_assoc]
        rfl
      · have hg1d : g1.draw_pile.length = rest.length + 1 := by rw [hgd]; simp
        have hd1 : 1 ≤ g1.discard_pile.length := List.length_pos.mpr (hfd hd)
        have hg2d : g2.draw_pile.length = rest.length := rfl
        have hg2disc : g2.discard_pile.length = g1.discard_pile.length := rfl
        simp only [List.length_cons, hl', hg2d, hg2disc]
        omega

theorem drawLoop_total (s : List Card → List Card) (hlen : ∀ l, (s l).length = l.length)
    (next : Nat) :
    ∀ (k : Nat) (g : Game), next < g.players.length →
      totalCards (drawLoop s g next k) = totalCards g := by
  intro k
  induction k with
  | zero => intro g _; rfl
  | succ m ih =>
    intro g hn
    obtain ⟨hfp, hfn, hfc, hfd⟩ := refillIfEmpty_frame s g
    have hfsum := refillIfEmpty_sum s hlen g
    have hftot : totalCards (if g.draw_pile = [] then refreshDrawPile s g else g)
        = totalCards g := by
      simp only [totalCards, hfp]
      omega
    cases hgd : (if g.draw_pile = [] then refreshDrawPile s g else g).draw_pile with
    | nil =>
      rw [drawLoop_succ_stuck s g next m hgd]
      exact hftot
    | cons c rest =>
      rw [drawLoop_succ_pop s g _ next m c rest rfl hgd]
      set g1 := if g.draw_pile = [] then refreshDrawPile s g else g with hg1
      set g2 : Game :=
        { g1 with players := g1.players.set next (g1.players.getD next [] ++ [c])
                  draw_pile := rest } with hg2
      have hn1 : next < g1.players.length := by rw [hfp]; exact hn
      have hn2 : next < g2.players.length := by
        simp only [hg2]
        rw [List.length_set]
        exact hn1
      rw [ih g2 hn2]
      have hsum := sum_map_length_set g1.players next (g1.players.getD next [] ++ [c]) hn1
      have hg1d : g1.draw_pile.length = rest.length + 1 := by rw [hgd]; simp
      simp only [totalCards, hg2] at hftot ⊢
      simp only [List.length_append, List.length_cons, List.length_nil] at hsum
      omega

/-! ### Lemmas about `play_card` -/

theorem play_card_eq_of_bad_index (s : List Card → List Card) (g : Game) (pi ci : Int)
    (h : ¬ (0 ≤ pi ∧ pi < (g.num_players : Int) ∧ 0 ≤ ci ∧
        ci < (((g.players.getD pi.toNat []).length : Nat) : Int))) :
    play_card s g pi ci = (false, g) := by
  unfold play_card
  rw [if_pos h]

theorem play_card_eq_of_nomatch (s : List Card → List Card) (g : Game) (pi ci : Int)
    (hb : 0 ≤ pi ∧ pi < (g.num_players : Int) ∧ 0 ≤ ci ∧
        ci < (((g.players.getD pi.toNat []).length : Nat) : Int))
    (hm : ¬ matchesTop g ((g.players.getD pi.toNat []).getD ci.toNat default) = true) :
    play_card s g pi ci = (false, g) := by
  unfold play_card
  rw [if_neg (not_not_intro hb)]
  simp only []
  rw [if_pos (by simpa using hm)]

theorem play_card_eq_of_success (s : List Card → List Card) (g : Game) (pi ci : Int)
    (hb : 0 ≤ pi ∧ pi < (g.num_players : Int) ∧ 0 ≤ ci ∧
        ci < (((g.players.getD pi.toNat []).length : Nat) : Int))
    (hm : matchesTop g ((g.players.getD pi.toNat []).getD ci.toNat default) = true) :
    play_card s g pi ci = (true, playSuccState s g pi.toNat ci.toNat) := by
  unfold play_card playSuccState
  rw [if_neg (not_not_intro hb)]
  simp only []
  rw [if_neg (by simpa using hm)]

theorem matchesTop_iff (g : Game) (c : Card) :
    matchesTop g c = true ↔
      (g.discard_pile = [] ∨ c.suit = (g.discard_pile.getLastD default).suit ∨
        c.value = (g.discard_pile.getLastD default).value ∨ c.value = 12) := by
  unfold matchesTop
  cases hl : g.discard_pile.getLast? with
  | none =>
    have hnil : g.discard_pile = [] := by
      cases hdp : g.discard_pile with
      | nil => rfl
      | cons a t => rw [hdp] at hl; simp [List.getLast?] at hl
    simp [hnil]
  | some top =>
    have hne : g.discard_pile ≠ [] := by
      intro hdp
      rw [hdp] at hl
      simp at hl
    have htop : g.discard_pile.getLastD default = top := by
      rw [List.getLastD_eq_getLast?, hl]
      rfl
    simp [hne, htop, hl, Bool.or_eq_true, beq_iff_eq, or_assoc]

/-- Success of `play_card` is exactly: indices in range and the card matches
the active card (or the discard pile is empty). -/
theorem play_card_isTrue_iff (s : List Card → List Card) (g : Game) (pi ci : Int) :
    (play_card s g pi ci).1 = true ↔
      (0 ≤ pi ∧ pi < (g.num_players : Int) ∧ 0 ≤ ci ∧
        ci < (((g.players.getD pi.toNat []).length : Nat) : Int) ∧
        (g.discard_pile = [] ∨
          ((g.players.getD pi.toNat []).getD ci.toNat default).suit
            = (g.discard_pile.getLastD default).suit ∨
          ((g.players.getD pi.toNat []).getD ci.toNat default).value
            = (g.discard_pile.getLastD default).value ∨
          ((g.players.getD pi.toNat []).getD ci.toNat default).value = 12)) := by
  by_cases hb : 0 ≤ pi ∧ pi < (g.num_players : Int) ∧ 0 ≤ ci ∧
      ci < (((g.players.getD pi.toNat []).length : Nat) : Int)
  · by_cases hm : matchesTop g ((g.players.getD pi.toNat []).getD ci.toNat default) = true
    · rw [play_card_eq_of_success s g pi ci hb hm]
      simp only [true_iff]
      exact ⟨hb.1, hb.2.1, hb.2.2.1, hb.2.2.2, (matchesTop_iff g _).mp hm⟩
    · rw [play_card_eq_of_nomatch s g pi ci hb hm]
      simp only [Bool.false_eq_true, false_iff]
      intro ⟨_, _, _, _, hc⟩
      exact hm ((matchesTop_iff g _).mpr hc)
  · rw [play_card_eq_of_bad_index s g pi ci hb]
    simp only [Bool.false_eq_true, false_iff]
    intro ⟨h1, h2, h3, h4, _⟩
    exact hb ⟨h1, h2, h3, h4⟩

/-- A failed `play_card` leaves the state untouched. -/
theorem play_card_fail_frame (s : List Card → List Card) (g : Game) (pi ci : Int)
    (h : (play_card s g pi ci).1 = false) : (play_card s g pi ci).2 = g := by
  by_cases hb : 0 ≤ pi ∧ pi < (g.num_players : Int) ∧ 0 ≤ ci ∧
      ci < (((g.players.getD pi.toNat []).length : Nat) : Int)
  · by_cases hm : matchesTop g ((g.players.getD pi.toNat []).getD ci.toNat default) = true
    · rw [play_card_eq_of_success s g pi ci hb hm] at h
      simp at h
    · rw [play_card_eq_of_nomatch s g pi ci hb hm]
  · rw [play_card_eq_of_bad_index s g pi ci hb]

/-! ### Lemmas about `draw_card` -/

theorem draw_card_eq_of_bad_index (s : List Card → List Card) (g : Game) (pi : Int)
    (h : ¬ (0 ≤ pi ∧ pi < (g.num_players : Int))) :
    draw_card s g pi = (false, g) := by
  unfold draw_card
  rw [if_pos h]

theorem draw_card_eq_stuck (s : List Card → List Card) (g : Game) (pi : Int)
    (hb : 0 ≤ pi ∧ pi < (g.num_players : Int))
    (h1 : (if g.draw_pile = [] then refreshDrawPile s g else g).draw_pile = []) :
    draw_card s g pi = (false, if g.draw_pile = [] then refreshDrawPile s g else g) := by
  unfold draw_card
  rw [if_neg (not_not_intro hb)]
  split <;> rename_i hif <;> simp only [hif, ite_true, ite_false] at h1 ⊢ <;>
    split <;> rename_i heq <;>
    first
      | rfl
      | exact absurd (h1.symm.trans heq) (by simp)

theorem draw_card_eq_pop (s : List Card → List Card) (g : Game) (pi : Int)
    (c : Card) (rest : List Card)
    (hb : 0 ≤ pi ∧ pi < (g.num_players : Int))
    (h1 : (if g.draw_pile = [] then refreshDrawPile s g else g).draw_pile = c :: rest) :
    draw_card s g pi =
      (true,
        { (if g.draw_pile = [] then refreshDrawPile s g else g) with
          players := (if g.draw_pile = [] then refreshDrawPile s g else g).players.set pi.toNat
            ((if g.draw_pile = [] then refreshDrawPile s g else g).players.getD pi.toNat []
              ++ [c])
          draw_pile := rest }) := by
  unfold draw_card
  rw [if_neg (not_not_intro hb)]
  split <;> rename_i hif <;> simp only [hif, ite_true, ite_false] at h1 ⊢ <;>
    split <;> rename_i heq <;>
    first
      | (rename_i c' rest'
         obtain ⟨hc, hr⟩ := List.cons.inj (heq.symm.trans h1)
         subst hc; subst hr
         rfl)
      | exact absurd (heq.symm.trans h1) (by simp)

/-- Success of `draw_card` is exactly: seat in range and the draw pile
non-empty after the refill attempt. -/
theorem draw_card_isTrue_iff (s : List Card → List Card)
    (hlen : ∀ l, (s l).length = l.length) (g : Game) (pi : Int) :
    (draw_card s g pi).1 = true ↔
      (0 ≤ pi ∧ pi < (g.num_players : Int) ∧
        (if g.draw_pile = [] then refreshDrawPile s g else g).draw_pile ≠ []) := by
  by_cases hb : 0 ≤ pi ∧ pi < (g.num_players : Int)
  · cases hgd : (if g.draw_pile = [] then refreshDrawPile s g else g).draw_pile with
    | nil =>
      rw [draw_card_eq_stuck s g pi hb hgd]
      simp [hgd, hb.1, hb.2]
    | cons c rest =>
      rw [draw_card_eq_pop s g pi c rest hb hgd]
      simp [hgd, hb.1, hb.2]
  · rw [draw_card_eq_of_bad_index s g pi hb]
    simp only [Bool.false_eq_true, false_iff]
    intro ⟨h1, h2, _⟩
    exact hb ⟨h1, h2⟩

/-! ### Branch lemmas for `playSuccState` -/

theorem playSuccState_fourteen (s : List Card → List Card) (g : Game) (i j : Nat)
    (h14 : ((g.players.getD i []).getD j default).value = 14) :
    (playSuccState s g i j).current_player =
      get_next_active_player
        { playMid g i j with current_player := get_next_active_player (playMid g i j) } := by
  unfold playSuccState
  simp only [h14, reduceIte]
  set g2 : Game :=
    { playMid g i j with current_player := get_next_active_player (playMid g i j) } with hg2
  show (next_turn (if g2.draw_pile = [] ∧ (14 : Nat) ≠ 7 then refreshDrawPile s g2
    else g2)).current_player = get_next_active_player g2
  unfold next_turn
  split
  · exact nextActive_congr _ _ (refresh_players s g2) (refresh_num s g2) (refresh_current s g2)
  · rfl

theorem playSuccState_players_of_ne7 (s : List Card → List Card) (g : Game) (i j : Nat)
    (h7 : ((g.players.getD i []).getD j default).value ≠ 7) :
    (playSuccState s g i j).players = (playMid g i j).players := by
  unfold playSuccState
  simp only [if_neg h7]
  split <;> unfold next_turn <;> split <;> simp [refresh_players]

theorem playSuccState_seven (s : List Card → List Card) (g : Game) (i j : Nat)
    (h7 : ((g.players.getD i []).getD j default).value = 7) :
    playSuccState s g i j =
      next_turn
        { drawLoop s (playMid g i j) (get_next_active_player (playMid g i j)) 3 with
          current_player := get_next_active_player (playMid g i j) } := by
  unfold playSuccState
  simp only [h7, reduceIte, ne_eq, not_true_eq_false, and_false, if_false, ite_false]

/-! ### Claim theorems -/

/-- C1: `play_card` succeeds iff both indices are in range and the played card
matches the active (tail discard) card's suit or value or has the wild value
12, with every in-hand card playable when the discard pile is empty; a failed
`play_card` (bad index or illegal match) leaves the whole state — all hands,
both piles and `current_player` — unchanged. -/
theorem claim_C1 (s : List Card → List Card) (g : Game) (pi ci : Int) :
    ((play_card s g pi ci).1 = true ↔
      (0 ≤ pi ∧ pi < (g.num_players : Int) ∧ 0 ≤ ci ∧
        ci < (((g.players.getD pi.toNat []).length : Nat) : Int) ∧
        (g.discard_pile = [] ∨
          ((g.players.getD pi.toNat []).getD ci.toNat default).suit
            = (g.discard_pile.getLastD default).suit ∨
          ((g.players.getD pi.toNat []).getD ci.toNat default).value
            = (g.discard_pile.getLastD default).value ∨
          ((g.players.getD pi.toNat []).getD ci.toNat default).value = 12))) ∧
    ((play_card s g pi ci).1 = false → (play_card s g pi ci).2 = g) := by
  exact ⟨play_card_isTrue_iff s g pi ci, play_card_fail_frame s g pi ci⟩

/-- C10: `Game(n)` silently clamps the seat count to at least 2
(`max(2, n)`), and starts with one empty hand per seat, empty draw and
discard piles and `current_player = 0`. -/
theorem claim_C10 (n : Int) :
    (((mkGame n).num_players : Int) = max 2 n) ∧
    (n < 2 → (mkGame n).num_players = 2) ∧
    (mkGame n).players = List.replicate (mkGame n).num_players [] ∧
    (mkGame n).players.length = (mkGame n).num_players ∧
    (∀ h, h ∈ (mkGame n).players → h = []) ∧
    (mkGame n).draw_pile = [] ∧
    (mkGame n).discard_pile = [] ∧
    (mkGame n).current_player = 0 := by
  refine ⟨?_, ?_, rfl, by simp [mkGame], ?_, rfl, rfl, rfl⟩
  · have h2 : (0 : Int) ≤ max 2 n := le_trans (by omega) (le_max_left 2 n)
    simp [mkGame, Int.toNat_of_nonneg h2]
  · intro hn
    have : max 2 n = 2 := by omega
    simp [mkGame, this]
  · intro h hh
    exact List.eq_of_mem_replicate hh

/-- C3 counterexample: in `gameOverEx` the round is over
(`check_game_over = true`, only seat 0 still holds cards), yet a subsequent
`play_card` by seat 0 succeeds, and in the variant with a stocked draw pile a
subsequent `draw_card` succeeds as well — round-over does not gate either
call. -/
theorem claim_C3_counterexample :
    check_game_over gameOverEx = true ∧
    (play_card id gameOverEx 0 0).1 = true ∧
    check_game_over gameOverDrawEx = true ∧
    (draw_card id gameOverDrawEx 1).1 = true := by
  decide

/-- C3 (amended): `Game` itself never consults `check_game_over`: even when
the round is over, `play_card` succeeds under exactly its usual conditions
(indices in range and a suit/value/wild match against the active card) and
`draw_card` succeeds under exactly its usual conditions (seat in range and a
non-empty draw pile after the refill attempt). Round-over monotonicity is
not a property of the `Game` methods. -/
theorem claim_C3_amended (s : List Card → List Card)
    (hlen : ∀ l, (s l).length = l.length) (g : Game) (pi ci : Int)
    (hgo : check_game_over g = true) :
    ((play_card s g pi ci).1 = true ↔
      (0 ≤ pi ∧ pi < (g.num_players : Int) ∧ 0 ≤ ci ∧
        ci < (((g.players.getD pi.toNat []).length : Nat) : Int) ∧
        (g.discard_pile = [] ∨
          ((g.players.getD pi.toNat []).getD ci.toNat default).suit
            = (g.discard_pile.getLastD default).suit ∨
          ((g.players.getD pi.toNat []).getD ci.toNat default).value
            = (g.discard_pile.getLastD default).value ∨
          ((g.players.getD pi.toNat []).getD ci.toNat default).value = 12))) ∧
    ((draw_card s g pi).1 = true ↔
      (0 ≤ pi ∧ pi < (g.num_players : Int) ∧
        (if g.draw_pile = [] then refreshDrawPile s g else g).draw_pile ≠ [])) := by
  exact ⟨play_card_isTrue_iff s g pi ci, draw_card_isTrue_iff s hlen g pi⟩

/-- C3 witness: the amended theorem applied to `gameOverEx` shows the
play succeeding after round-over, and to `gameOverDrawEx` the draw. -/
theorem claim_C3_witness :
    (play_card id gameOverEx 0 0).1 = true ∧ (draw_card id gameOverDrawEx 1).1 = true := by
  constructor
  · exact (claim_C3_amended id (fun l => rfl) gameOverEx 0 0 (by decide)).1.mpr (by decide)
  · exact (claim_C3_amended id (fun l => rfl) gameOverDrawEx 1 0 (by decide)).2.mpr (by decide)

/-- C5: `draw_card` on an in-range seat first refills an empty draw pile from
the discard pile; if the pile is still empty it fails and returns the state
unchanged; otherwise it pops the head of the (possibly refilled) pile onto
the end of that seat's hand, touches no other hand, and never moves
`current_player`. -/
theorem claim_C5 (s : List Card → List Card) (hlen : ∀ l, (s l).length = l.length)
    (g : Game) (pi : Int)
    (hb : 0 ≤ pi ∧ pi < (g.num_players : Int))
    (hinv : g.players.length = g.num_players) :
    ((if g.draw_pile = [] then refreshDrawPile s g else g).draw_pile = [] →
      draw_card s g pi = (false, g)) ∧
    (∀ c rest, (if g.draw_pile = [] then refreshDrawPile s g else g).draw_pile = c :: rest →
      (draw_card s g pi).1 = true ∧
      handOf (draw_card s g pi).2 pi.toNat = handOf g pi.toNat ++ [c] ∧
      (draw_card s g pi).2.draw_pile = rest ∧
      (draw_card s g pi).2.discard_pile
        = (if g.draw_pile = [] then refreshDrawPile s g else g).discard_pile ∧
      (∀ t, t ≠ pi.toNat → handOf (draw_card s g pi).2 t = handOf g t)) ∧
    (draw_card s g pi).2.current_player = g.current_player := by
  obtain ⟨hfp, hfn, hfc, _⟩ := refillIfEmpty_frame s g
  have hpi : pi.toNat < g.players.length := by
    rw [hinv]
    omega
  refine ⟨?_, ?_, ?_⟩
  · intro hstuck
    rw [draw_card_eq_stuck s g pi hb hstuck]
    rw [(refillIfEmpty_stuck s hlen g hstuck).1]
  · intro c rest hpop
    rw [draw_card_eq_pop s g pi c rest hb hpop]
    refine ⟨rfl, ?_, rfl, rfl, ?_⟩
    · simp only [handOf]
      rw [getD_set_self _ _ _ _ (by rw [hfp]; exact hpi), hfp]
    · intro t ht
      simp only [handOf]
      rw [getD_set_ne _ _ _ (fun hh => ht hh.symm), hfp]
  · cases hgd : (if g.draw_pile = [] then refreshDrawPile s g else g).draw_pile with
    | nil =>
      rw [draw_card_eq_stuck s g pi hb hgd]
      exact hfc
    | cons c rest =>
      rw [draw_card_eq_pop s g pi c rest hb hgd]
      exact hfc

/-- C5 witness: `claim_C5` applied to the concrete state `drawEx` at seat 0:
the draw succeeds, seat 0's hand gains the popped head card, and the turn
pointer is untouched. -/
theorem claim_C5_witness :
    (draw_card id drawEx 0).1 = true ∧
    handOf (draw_card id drawEx 0).2 0 = handOf drawEx 0 ++ [⟨9, Suit.hearts⟩] ∧
    (draw_card id drawEx 0).2.current_player = 0 := by
  have h := claim_C5 id (fun l => rfl) drawEx 0 ⟨by decide, by decide⟩ rfl
  obtain ⟨h1, h2, h3⟩ := h.2.1 ⟨9, Suit.hearts⟩ [] (by decide)
  exact ⟨h1, h2, h.2.2⟩

/-- C9: after a successful play of a rank-14 card, the turn does not stop at
the normal next active seat `t = _get_next_active_player` but advances one
further active seat beyond it (the seat `t` is skipped), and the seat it
lands on has a non-empty hand whenever any seat still holds cards. -/
theorem claim_C9 (s : List Card → List Card) (g : Game) (pi ci : Int)
    (hsucc : (play_card s g pi ci).1 = true)
    (h14 : ((g.players.getD pi.toNat []).getD ci.toNat default).value = 14) :
    (play_card s g pi ci).2.current_player =
      get_next_active_player
        { playMid g pi.toNat ci.toNat with
          current_player := get_next_active_player (playMid g pi.toNat ci.toNat) } ∧
    ((∃ t, t < g.num_players ∧ (playMid g pi.toNat ci.toNat).players.getD t [] ≠ []) →
      (play_card s g pi ci).2.players.getD (play_card s g pi ci).2.current_player [] ≠ []) := by
  obtain ⟨h0, h1, h2, h3, hc⟩ := (play_card_isTrue_iff s g pi ci).mp hsucc
  have hm : matchesTop g ((g.players.getD pi.toNat []).getD ci.toNat default) = true :=
    (matchesTop_iff g _).mpr hc
  rw [play_card_eq_of_success s g pi ci ⟨h0, h1, h2, h3⟩ hm]
  set g2 : Game :=
    { playMid g pi.toNat ci.toNat with
      current_player := get_next_active_player (playMid g pi.toNat ci.toNat) } with hg2
  have hcur : (playSuccState s g pi.toNat ci.toNat).current_player
      = get_next_active_player g2 := playSuccState_fourteen s g pi.toNat ci.toNat h14
  have hpl : (playSuccState s g pi.toNat ci.toNat).players = g2.players :=
    playSuccState_players_of_ne7 s g pi.toNat ci.toNat (by rw [h14]; decide)
  refine ⟨hcur, ?_⟩
  intro hex
  have hnp : 0 < g2.num_players := by
    show 0 < g.num_players
    have : (0 : Int) < (g.num_players : Int) := lt_of_le_of_lt h0 h1
    exact_mod_cast this
  rw [hpl, hcur]
  exact get_next_active_nonempty g2 hnp hex

/-- C9 witness: `claim_C9` at `fourteenEx`: the normal handoff target is
seat 1, but after the rank-14 play the turn lands on seat 2. -/
theorem claim_C9_witness :
    (play_card id fourteenEx 0 0).1 = true ∧
    get_next_active_player (playMid fourteenEx 0 0) = 1 ∧
    (play_card id fourteenEx 0 0).2.current_player = 2 := by
  have h := claim_C9 id fourteenEx 0 0 (by decide) (by decide)
  exact ⟨by decide, by decide, by rw [h.1]; decide⟩

/-- C2 counterexample: in `sevenEx`, seat 0 plays a rank-7 card; seat 1 (the
next active seat) draws the 3 cards, but `play_card` then runs the normal
end-of-play `next_turn()` advance, so `current_player` ends at seat 0, not at
the seat that drew. -/
theorem claim_C2_counterexample :
    (play_card id sevenEx 0 0).1 = true ∧
    get_next_active_player (playMid sevenEx 0 0) = 1 ∧
    handOf (play_card id sevenEx 0 0).2 1
      = handOf (playMid sevenEx 0 0) 1
        ++ [⟨9, Suit.hearts⟩, ⟨9, Suit.diamonds⟩, ⟨9, Suit.clubs⟩] ∧
    (play_card id sevenEx 0 0).2.current_player = 0 ∧
    (play_card id sevenEx 0 0).2.current_player ≠ 1 := by
  decide

/-- C2 (amended): after a successful play of a rank-7 card, the next active
seat `t = _get_next_active_player` draws exactly `min 3 (draw + discard - 1)`
cards (3 unless the draw pile plus the refillable part of the discard pile
runs out), no other hand changes, and `current_player` then ends at the seat
the normal end-of-play `next_turn()` advance reaches from `t` — the drawing
seat itself is skipped rather than keeping the turn. -/
theorem claim_C2_amended (s : List Card → List Card)
    (hlen : ∀ l, (s l).length = l.length) (g : Game) (pi ci : Int)
    (hinv : g.players.length = g.num_players)
    (hsucc : (play_card s g pi ci).1 = true)
    (h7 : ((g.players.getD pi.toNat []).getD ci.toNat default).value = 7) :
    ∃ drawn : List Card,
      drawn.length = min 3 ((playMid g pi.toNat ci.toNat).draw_pile.length
        + (playMid g pi.toNat ci.toNat).discard_pile.length - 1) ∧
      handOf (play_card s g pi ci).2 (get_next_active_player (playMid g pi.toNat ci.toNat))
        = handOf (playMid g pi.toNat ci.toNat)
            (get_next_active_player (playMid g pi.toNat ci.toNat)) ++ drawn ∧
      (∀ t, t ≠ get_next_active_player (playMid g pi.toNat ci.toNat) →
        handOf (play_card s g pi ci).2 t = handOf (playMid g pi.toNat ci.toNat) t) ∧
      (play_card s g pi ci).2.current_player =
        get_next_active_player
          { drawLoop s (playMid g pi.toNat ci.toNat)
              (get_next_active_player (playMid g pi.toNat ci.toNat)) 3 with
            current_player := get_next_active_player (playMid g pi.toNat ci.toNat) } := by
  obtain ⟨h0, h1, h2, h3, hc⟩ := (play_card_isTrue_iff s g pi ci).mp hsucc
  have hm : matchesTop g ((g.players.getD pi.toNat []).getD ci.toNat default) = true :=
    (matchesTop_iff g _).mpr hc
  rw [play_card_eq_of_success s g pi ci ⟨h0, h1, h2, h3⟩ hm,
    playSuccState_seven s g pi.toNat ci.toNat h7]
  set g1 : Game := playMid g pi.toNat ci.toNat with hg1
  set t := get_next_active_player g1 with ht
  have hnp : 0 < g.num_players := by
    have : (0 : Int) < (g.num_players : Int) := lt_of_le_of_lt h0 h1
    exact_mod_cast this
  have hg1len : g1.players.length = g.players.length := by
    simp [hg1, playMid]
  have htlt : t < g1.players.length := by
    rw [hg1len, hinv]
    exact get_next_active_player_lt g1 hnp
  have hg1disc : g1.discard_pile ≠ [] := by
    simp [hg1, playMid]
  obtain ⟨drawn, hpl, hdl⟩ := drawLoop_spec s hlen t 3 g1 htlt hg1disc
  refine ⟨drawn, hdl, ?_, ?_, rfl⟩
  · show (drawLoop s g1 t 3).players.getD t [] = g1.players.getD t [] ++ drawn
    rw [hpl, getD_set_self _ _ _ _ htlt]
  · intro u hu
    show (drawLoop s g1 t 3).players.getD u [] = g1.players.getD u []
    rw [hpl, getD_set_ne _ _ _ (fun hh => hu hh.symm)]

/-- C2 witness: the amended theorem applied to `sevenEx`: seat 1 draws
exactly 3 cards and the final turn pointer is the post-draw `next_turn`
target. -/
theorem claim_C2_witness :
    ∃ drawn : List Card,
      drawn.length = min 3 ((playMid sevenEx 0 0).draw_pile.length
        + (playMid sevenEx 0 0).discard_pile.length - 1) ∧
      handOf (play_card id sevenEx 0 0).2 (get_next_active_player (playMid sevenEx 0 0))
        = handOf (playMid sevenEx 0 0) (get_next_active_player (playMid sevenEx 0 0))
          ++ drawn ∧
      (∀ t, t ≠ get_next_active_player (playMid sevenEx 0 0) →
        handOf (play_card id sevenEx 0 0).2 t = handOf (playMid sevenEx 0 0) t) ∧
      (play_card id sevenEx 0 0).2.current_player =
        get_next_active_player
          { drawLoop id (playMid sevenEx 0 0) (get_next_active_player (playMid sevenEx 0 0)) 3 with
            current_player := get_next_active_player (playMid sevenEx 0 0) } :=
  claim_C2_amended id (fun l => rfl) sevenEx 0 0 rfl (by decide) (by decide)

/-! ### Lemmas for the `end_game` result computation -/

theorem contains_mem_iff {α : Type} [BEq α] [LawfulBEq α] (l : List α) (a : α) :
    l.contains a = true ↔ a ∈ l := by
  simp [List.contains, List.elem_iff]

theorem rankFrom_length (disc : List Nat) :
    ∀ (rows : List (Nat × Nat)) (r : Nat), (rankFrom disc r rows).length = rows.length := by
  intro rows
  induction rows with
  | nil => intro r; rfl
  | cons p rest ih =>
    intro r
    cases p with
    | mk pid cl => simp [rankFrom, ih]

theorem rankFrom_getD (disc : List Nat) :
    ∀ (rows : List (Nat × Nat)) (r k : Nat), k < rows.length →
      (rankFrom disc r rows).getD k default =
        ⟨(rows.getD k (0, 0)).1, r + k, (rows.getD k (0, 0)).2,
          disc.contains (rows.getD k (0, 0)).1⟩ := by
  intro rows
  induction rows with
  | nil => intro r k h; simp at h
  | cons p rest ih =>
    intro r k h
    cases p with
    | mk pid cl =>
      cases k with
      | zero => simp [rankFrom, List.getD]
      | succ m =>
        have hm : m < rest.length := by simpa using h
        have hrec := ih (r + 1) m hm
        simp only [rankFrom, List.getD_cons_succ]
        rw [hrec]
        congr 1
        omega

theorem rankFrom_append (disc : List Nat) :
    ∀ (xs ys : List (Nat × Nat)) (r : Nat),
      rankFrom disc r (xs ++ ys) = rankFrom disc r xs ++ rankFrom disc (r + xs.length) ys := by
  intro xs
  induction xs with
  | nil => intro ys r; simp [rankFrom]
  | cons p rest ih =>
    intro ys r
    cases p with
    | mk pid cl =>
      simp only [List.cons_append, rankFrom]
      simp only [List.append_eq]
      rw [ih ys (r + 1)]
      simp only [List.length_cons]
      have harith : r + 1 + rest.length = r + (rest.length + 1) := by omega
      rw [harith]

theorem rankFrom_map_pid (disc : List Nat) :
    ∀ (rows : List (Nat × Nat)) (r : Nat),
      (rankFrom disc r rows).map ResultEntry.pid = rows.map Prod.fst := by
  intro rows
  induction rows with
  | nil => intro r; rfl
  | cons p rest ih =>
    intro r
    cases p with
    | mk pid cl => simp [rankFrom, ih]

theorem rankFrom_map_cl (disc : List Nat) :
    ∀ (rows : List (Nat × Nat)) (r : Nat),
      (rankFrom disc r rows).map ResultEntry.cards_left = rows.map Prod.snd := by
  intro rows
  induction rows with
  | nil => intro r; rfl
  | cons p rest ih =>
    intro r
    cases p with
    | mk pid cl => simp [rankFrom, ih]

theorem rankFrom_mem (disc : List Nat) :
    ∀ (rows : List (Nat × Nat)) (r : Nat) (e : ResultEntry), e ∈ rankFrom disc r rows →
      ∃ p, p ∈ rows ∧ e.pid = p.1 ∧ e.cards_left = p.2 ∧
        e.disconnected = disc.contains p.1 := by
  intro rows
  induction rows with
  | nil => intro r e h; simp [rankFrom] at h
  | cons p rest ih =>
    intro r e h
    cases p with
    | mk pid cl =>
      simp only [rankFrom, List.mem_cons] at h
      cases h with
      | inl he => exact ⟨(pid, cl), by simp, by simp [he], by simp [he], by simp [he]⟩
      | inr he =>
        obtain ⟨q, hq, h1, h2, h3⟩ := ih (r + 1) e he
        exact ⟨q, by simp [hq], h1, h2, h3⟩

theorem sortRows_perm (rows : List (Nat × Nat)) : List.Perm (sortRows rows) rows :=
  List.mergeSort_perm rows _

theorem sortRows_sorted (rows : List (Nat × Nat)) :
    (sortRows rows).Pairwise (fun a b => a.2 ≤ b.2) := by
  have h := @List.sorted_mergeSort (Nat × Nat) (fun a b => decide (a.2 ≤ b.2))
    (by intro a b c hab hbc; simp at hab hbc ⊢; omega)
    (by intro a b; simp; omega) rows
  refine h.imp ?_
  intro a b hab
  simpa using hab

theorem remainingRows_map_fst (fo : List Nat) (mp : Nat) (hands : List (List Card)) :
    (remainingRows fo mp hands).map Prod.fst
      = (List.range mp).filter fun i => ¬ fo.contains i := by
  unfold remainingRows
  rw [List.map_map]
  have hcomp : (Prod.fst ∘ fun i : Nat => (i, (hands.getD i []).length)) = fun i : Nat => i := by
    funext i
    rfl
  rw [hcomp, List.map_id']

theorem remainingRows_mem (fo : List Nat) (mp : Nat) (hands : List (List Card))
    (p : Nat × Nat) (hp : p ∈ remainingRows fo mp hands) :
    p.1 < mp ∧ ¬ fo.contains p.1 = true ∧ p.2 = (hands.getD p.1 []).length := by
  unfold remainingRows at hp
  obtain ⟨i, hi, hpe⟩ := List.mem_map.mp hp
  obtain ⟨hir, hif⟩ := List.mem_filter.mp hi
  subst hpe
  refine ⟨List.mem_range.mp hir, ?_, rfl⟩
  simpa using hif

theorem firstEmptySeat_spec :
    ∀ l : List (List Card),
      (∀ w, firstEmptySeat l = some w →
        w < l.length ∧ l.getD w [] = [] ∧ ∀ u, u < w → l.getD u [] ≠ []) ∧
      (firstEmptySeat l = none → ∀ u, u < l.length → l.getD u [] ≠ []) := by
  intro l
  induction l with
  | nil =>
    refine ⟨fun w hw => by simp [firstEmptySeat] at hw, fun _ u hu => by simp at hu⟩
  | cons h t ih =>
    by_cases he : h.isEmpty
    · refine ⟨fun w hw => ?_, fun hn => ?_⟩
      · simp only [firstEmptySeat, if_pos he] at hw
        obtain rfl := (Option.some.inj hw).symm
        refine ⟨by simp, ?_, fun u hu => by omega⟩
        simpa [List.getD, List.isEmpty_iff] using he
      · simp only [firstEmptySeat, if_pos he] at hn
        simp at hn
    · refine ⟨fun w hw => ?_, fun hn => ?_⟩
      · simp only [firstEmptySeat, if_neg he] at hw
        cases hft : firstEmptySeat t with
        | none => rw [hft] at hw; simp at hw
        | some w' =>
          rw [hft] at hw
          simp only [Option.map_some'] at hw
          obtain rfl := (Option.some.inj hw).symm
          obtain ⟨hw1, hw2, hw3⟩ := ih.1 w' hft
          refine ⟨by simpa using hw1, by simpa [List.getD] using hw2, ?_⟩
          intro u hu
          cases u with
          | zero =>
            simp only [List.getD]
            simpa [List.isEmpty_iff] using he
          | succ v =>
            have := hw3 v (by omega)
            simpa [List.getD] using this
      · simp only [firstEmptySeat, if_neg he] at hn
        cases hft : firstEmptySeat t with
        | some w' => rw [hft] at hn; simp at hn
        | none =>
          intro u hu
          cases u with
          | zero =>
            simp only [List.getD]
            simpa [List.isEmpty_iff] using he
          | succ v =>
            have := ih.2 hft v (by simpa using hu)
            simpa [List.getD] using this

/-- C4: `end_game` ranks the finishers first, in `finish_order` order with
ranks 1..k and `cards_left = 0`; every other seat appears after them (every
rank equals its position + 1, so non-finishers rank strictly worse), the
non-finishers are ordered by ascending remaining hand size and are exactly
the seats not in `finish_order`; every entry carries the seat's
`disconnected` flag; and the winner is the first seat with an empty hand, or
none when no hand is empty. -/
theorem claim_C4 (fo : List Nat) (mp : Nat) (hands : List (List Card)) (disc : List Nat) :
    ((end_game_results fo mp hands disc).length
       = fo.length + ((List.range mp).filter fun i => ¬ fo.contains i).length) ∧
    (∀ k, k < fo.length →
      (end_game_results fo mp hands disc).getD k default
        = ⟨fo.getD k 0, k + 1, 0, disc.contains (fo.getD k 0)⟩) ∧
    (∀ k, k < (end_game_results fo mp hands disc).length →
      ((end_game_results fo mp hands disc).getD k default).rank = k + 1) ∧
    (((end_game_results fo mp hands disc).drop fo.length).map
        ResultEntry.cards_left).Pairwise (· ≤ ·) ∧
    List.Perm (((end_game_results fo mp hands disc).drop fo.length).map ResultEntry.pid)
      ((List.range mp).filter fun i => ¬ fo.contains i) ∧
    (∀ e, e ∈ (end_game_results fo mp hands disc).drop fo.length →
      e.pid < mp ∧ ¬ fo.contains e.pid = true ∧
      e.cards_left = (hands.getD e.pid []).length ∧
      e.disconnected = disc.contains e.pid) ∧
    (∀ w, end_game_winner hands = some w →
      w < hands.length ∧ hands.getD w [] = [] ∧ ∀ u, u < w → hands.getD u [] ≠ []) ∧
    (end_game_winner hands = none → ∀ u, u < hands.length → hands.getD u [] ≠ []) := by
  set rows1 : List (Nat × Nat) := fo.map fun pid => (pid, 0) with hrows1
  set rows2 : List (Nat × Nat) := sortRows (remainingRows fo mp hands) with hrows2
  have hdef : end_game_results fo mp hands disc = rankFrom disc 1 (rows1 ++ rows2) := rfl
  have hsplit : end_game_results fo mp hands disc
      = rankFrom disc 1 rows1 ++ rankFrom disc (1 + rows1.length) rows2 := by
    rw [hdef, rankFrom_append]
  have hlen1 : (rankFrom disc 1 rows1).length = fo.length := by
    rw [rankFrom_length, hrows1, List.length_map]
  have hlenr1 : rows1.length = fo.length := by
    rw [hrows1, List.length_map]
  have hlen2 : rows2.length = ((List.range mp).filter fun i => ¬ fo.contains i).length := by
    rw [hrows2, (sortRows_perm (remainingRows fo mp hands)).length_eq]
    unfold remainingRows
    rw [List.length_map]
  have hdrop : (end_game_results fo mp hands disc).drop fo.length
      = rankFrom disc (1 + fo.length) rows2 := by
    rw [hsplit, hlenr1, List.drop_left' (by rw [hlen1])]
  refine ⟨?_, ?_, ?_, ?_, ?_, ?_, (firstEmptySeat_spec hands).1, (firstEmptySeat_spec hands).2⟩
  · rw [hsplit, List.length_append, hlen1, rankFrom_length, hlen2]
  · intro k hk
    rw [hsplit, getD_append_left _ _ _ _ (by rw [hlen1]; exact hk)]
    rw [rankFrom_getD disc rows1 1 k (by rw [hlenr1]; exact hk)]
    have hget : rows1.getD k (0, 0) = (fo.getD k 0, 0) := by
      rw [hrows1]
      exact getD_map_of_lt (fun pid => (pid, 0)) fo k 0 hk
    rw [hget, Nat.add_comm 1 k]
  · intro k hk
    rw [hdef] at hk ⊢
    rw [rankFrom_length] at hk
    rw [rankFrom_getD disc _ 1 k hk]
    exact Nat.add_comm 1 k
  · rw [hdrop, rankFrom_map_cl]
    have hs := sortRows_sorted (remainingRows fo mp hands)
    rw [← hrows2] at hs
    exact List.pairwise_map.mpr hs
  · rw [hdrop, rankFrom_map_pid]
    have hp : List.Perm (rows2.map Prod.fst) ((remainingRows fo mp hands).map Prod.fst) :=
      (sortRows_perm (remainingRows fo mp hands)).map Prod.fst
    rw [remainingRows_map_fst] at hp
    exact hp
  · intro e he
    rw [hdrop] at he
    obtain ⟨p, hp, h1, h2, h3⟩ := rankFrom_mem disc rows2 (1 + fo.length) e he
    have hpm : p ∈ remainingRows fo mp hands := by
      rw [hrows2] at hp
      exact List.mem_mergeSort.mp hp
    obtain ⟨hq1, hq2, hq3⟩ := remainingRows_mem fo mp hands p hpm
    exact ⟨h1 ▸ hq1, h1 ▸ hq2, by rw [h2, h1, hq3], by rw [h3, h1]⟩

/-! ### Card-count conservation lemmas -/
theorem totalCards_next_turn (g : Game) : totalCards (next_turn g) = totalCards g := rfl

theorem playMid_total (g : Game) (i j : Nat) (hi : i < g.players.length)
    (hj : j < (g.players.getD i []).length) :
    totalCards (playMid g i j) = totalCards g := by
  unfold playMid totalCards
  have hsum := sum_map_length_set g.players i ((g.players.getD i []).eraseIdx j) hi
  have herase := List.length_eraseIdx_of_lt hj
  simp only [List.length_append, List.length_cons, List.length_nil]
  omega

theorem playSuccState_total (s : List Card → List Card)
    (hlen : ∀ l, (s l).length = l.length) (g : Game) (i j : Nat)
    (hi : i < g.players.length) (hj : j < (g.players.getD i []).length)
    (hinv : g.players.length = g.num_players) (hnp : 0 < g.num_players) :
    totalCards (playSuccState s g i j) = totalCards g := by
  have hmid := playMid_total g i j hi hj
  have hg1len : (playMid g i j).players.length = g.players.length := by
    simp [playMid]
  have ht : get_next_active_player (playMid g i j) < (playMid g i j).players.length := by
    rw [hg1len, hinv]
    exact get_next_active_player_lt (playMid g i j) hnp
  have hdl := drawLoop_total s hlen (get_next_active_player (playMid g i j)) 3
    (playMid g i j) ht
  unfold playSuccState
  simp only []
  split <;> [skip; split] <;> rw [totalCards_next_turn] <;> split <;>
    rename_i hcond <;>
    first
      | (rw [refresh_total s hlen _ hcond.1]
         simp only [totalCards] at hdl hmid ⊢
         omega)
      | (simp only [totalCards] at hdl hmid ⊢
         omega)

theorem dealOnce_sum : ∀ (ps : List (List Card)) (pile : List Card),
    ((dealOnce ps pile).1.map List.length).sum + (dealOnce ps pile).2.length
      = (ps.map List.length).sum + pile.length := by
  intro ps
  induction ps with
  | nil => intro pile; simp [dealOnce]
  | cons h rest ih =>
    intro pile
    cases pile with
    | nil => simp [dealOnce]
    | cons c pile' =>
      have := ih pile'
      simp only [dealOnce, List.map_cons, List.sum_cons, List.length_append,
        List.length_cons, List.length_nil] at this ⊢
      omega

theorem dealRound_total (g : Game) : totalCards (dealRound g) = totalCards g := by
  unfold dealRound totalCards
  simp only []
  have := dealOnce_sum g.players g.draw_pile
  omega

theorem deal_cards_eq_move (g : Game) (c : Card) (rest : List Card)
    (h : (dealRound (dealRound (dealRound (dealRound (dealRound g))))).draw_pile = c :: rest) :
    deal_cards g =
      { dealRound (dealRound (dealRound (dealRound (dealRound g)))) with
        draw_pile := rest
        discard_pile :=
          (dealRound (dealRound (dealRound (dealRound (dealRound g))))).discard_pile ++ [c] } := by
  unfold deal_cards
  simp only []
  split <;> rename_i heq
  · exact absurd (heq.symm.trans h) (by simp)
  · rename_i c' rest'
    obtain ⟨hc, hr⟩ := List.cons.inj (heq.symm.trans h)
    subst hc; subst hr
    rfl

theorem deal_cards_eq_empty (g : Game)
    (h : (dealRound (dealRound (dealRound (dealRound (dealRound g))))).draw_pile = []) :
    deal_cards g = dealRound (dealRound (dealRound (dealRound (dealRound g)))) := by
  unfold deal_cards
  simp only []
  split <;> rename_i heq
  · rfl
  · exact absurd (h.symm.trans heq) (by simp)

theorem deal_cards_total (g : Game) : totalCards (deal_cards g) = totalCards g := by
  have h5 : totalCards (dealRound (dealRound (dealRound (dealRound (dealRound g)))))
      = totalCards g := by
    simp [dealRound_total]
  cases hdp : (dealRound (dealRound (dealRound (dealRound (dealRound g))))).draw_pile with
  | nil => rw [deal_cards_eq_empty g hdp]; exact h5
  | cons c rest =>
    rw [deal_cards_eq_move g c rest hdp]
    simp only [totalCards] at h5 ⊢
    simp only [List.length_append, List.length_cons, List.length_nil]
    have := congrArg List.length hdp
    simp only [List.length_cons] at this
    omega

theorem dealOnce_lengths : ∀ (ps : List (List Card)) (pile : List Card),
    ps.length ≤ pile.length →
    (dealOnce ps pile).1.map List.length = ps.map (fun h => h.length + 1) ∧
    (dealOnce ps pile).2.length = pile.length - ps.length := by
  intro ps
  induction ps with
  | nil => intro pile _; simp [dealOnce]
  | cons h rest ih =>
    intro pile hle
    cases pile with
    | nil => simp at hle
    | cons c pile' =>
      obtain ⟨ih1, ih2⟩ := ih pile' (by simpa using hle)
      simp only [dealOnce, List.map_cons, List.length_append, List.length_cons,
        List.length_nil, ih1, ih2]
      constructor
      · trivial
      · omega

theorem dealRound_shape (g : Game) (a b : Nat)
    (hp : g.players.map List.length = [a, b]) (hd : 2 ≤ g.draw_pile.length) :
    (dealRound g).players.map List.length = [a + 1, b + 1] ∧
    (dealRound g).draw_pile.length = g.draw_pile.length - 2 ∧
    (dealRound g).discard_pile = g.discard_pile := by
  have hlen2 : g.players.length = 2 := by
    have := congrArg List.length hp
    simpa using this
  obtain ⟨h1, h2⟩ := dealOnce_lengths g.players g.draw_pile (by omega)
  refine ⟨?_, by simpa [dealRound, hlen2] using h2, rfl⟩
  show (dealOnce g.players g.draw_pile).1.map List.length = [a + 1, b + 1]
  rw [h1]
  have : g.players.map (fun h => h.length + 1) = (g.players.map List.length).map (· + 1) := by
    rw [List.map_map]
    rfl
  rw [this, hp]
  rfl

theorem deal2_shape (s : List Card → List Card) (hlen : ∀ l, (s l).length = l.length) :
    (deal_cards (create_deck s (mkGame 2))).players.map List.length = [5, 5] ∧
    (deal_cards (create_deck s (mkGame 2))).discard_pile.length = 1 ∧
    (deal_cards (create_deck s (mkGame 2))).draw_pile.length = 21 := by
  set g0 := create_deck s (mkGame 2) with hg0
  have h0p : g0.players.map List.length = [0, 0] := rfl
  have h0d : g0.draw_pile.length = 32 := by
    show (s freshDeck).length = 32
    rw [hlen]
    rfl
  obtain ⟨p1, d1, c1⟩ := dealRound_shape g0 0 0 h0p (by omega)
  norm_num at p1
  obtain ⟨p2, d2, c2⟩ := dealRound_shape (dealRound g0) 1 1 p1 (by omega)
  norm_num at p2
  obtain ⟨p3, d3, c3⟩ := dealRound_shape (dealRound (dealRound g0)) 2 2 p2 (by omega)
  norm_num at p3
  obtain ⟨p4, d4, c4⟩ := dealRound_shape (dealRound (dealRound (dealRound g0))) 3 3 p3 (by omega)
  norm_num at p4
  obtain ⟨p5, d5, c5⟩ := dealRound_shape (dealRound (dealRound (dealRound (dealRound g0)))) 4 4 p4
    (by omega)
  norm_num at p5
  have hd5 : (dealRound (dealRound (dealRound (dealRound (dealRound g0))))).draw_pile.length
      = 22 := by omega
  have hdisc5 : (dealRound (dealRound (dealRound (dealRound (dealRound g0))))).discard_pile
      = [] := by
    rw [c5, c4, c3, c2, c1]
    rfl
  cases hdp : (dealRound (dealRound (dealRound (dealRound (dealRound g0))))).draw_pile with
  | nil => rw [hdp] at hd5; simp at hd5
  | cons c rest =>
    rw [deal_cards_eq_move g0 c rest hdp]
    have hrest : rest.length = 21 := by
      rw [hdp] at hd5
      simp at hd5
      omega
    refine ⟨p5, ?_, hrest⟩
    rw [hdisc5]
    rfl

theorem lt_length_of_getD_pos (l : List (List Card)) (i : Nat)
    (h : 0 < (l.getD i []).length) : i < l.length := by
  by_contra hc
  have : l.getD i [] = [] := by
    unfold List.getD
    rw [List.get?_eq_none.mpr (by omega)]
    rfl
  rw [this] at h
  simp at h

theorem play_card_total (s : List Card → List Card)
    (hlen : ∀ l, (s l).length = l.length) (g : Game) (pi ci : Int)
    (hinv : g.players.length = g.num_players) :
    totalCards (play_card s g pi ci).2 = totalCards g := by
  by_cases hs : (play_card s g pi ci).1 = true
  · obtain ⟨h0, h1, h2, h3, hc⟩ := (play_card_isTrue_iff s g pi ci).mp hs
    have hm : matchesTop g ((g.players.getD pi.toNat []).getD ci.toNat default) = true :=
      (matchesTop_iff g _).mpr hc
    rw [play_card_eq_of_success s g pi ci ⟨h0, h1, h2, h3⟩ hm]
    have hj : ci.toNat < (g.players.getD pi.toNat []).length := by omega
    have hi : pi.toNat < g.players.length :=
      lt_length_of_getD_pos g.players pi.toNat (by omega)
    have hnp : 0 < g.num_players := by omega
    exact playSuccState_total s hlen g pi.toNat ci.toNat hi hj hinv hnp
  · rw [play_card_fail_frame s g pi ci (by simpa using hs)]

theorem draw_card_total (s : List Card → List Card)
    (hlen : ∀ l, (s l).length = l.length) (g : Game) (pi : Int)
    (hinv : g.players.length = g.num_players) :
    totalCards (draw_card s g pi).2 = totalCards g := by
  by_cases hb : 0 ≤ pi ∧ pi < (g.num_players : Int)
  · obtain ⟨hfp, hfn, hfc, _⟩ := refillIfEmpty_frame s g
    have hftot : totalCards (if g.draw_pile = [] then refreshDrawPile s g else g)
        = totalCards g := by
      have := refillIfEmpty_sum s hlen g
      simp only [totalCards, hfp]
      omega
    cases hgd : (if g.draw_pile = [] then refreshDrawPile s g else g).draw_pile with
    | nil =>
      rw [draw_card_eq_stuck s g pi hb hgd]
      exact hftot
    | cons c rest =>
      rw [draw_card_eq_pop s g pi c rest hb hgd]
      have hpi : pi.toNat < (if g.draw_pile = [] then refreshDrawPile s g else g).players.length := by
        rw [hfp, hinv]
        omega
      have hsum := sum_map_length_set
        (if g.draw_pile = [] then refreshDrawPile s g else g).players pi.toNat
        ((if g.draw_pile = [] then refreshDrawPile s g else g).players.getD pi.toNat [] ++ [c])
        hpi
      have hgd' := congrArg List.length hgd
      simp only [List.length_cons] at hgd'
      simp only [totalCards] at hftot ⊢
      simp only [List.length_append, List.length_cons, List.length_nil] at hsum
      omega
  · rw [draw_card_eq_of_bad_index s g pi hb]

/-- C6 counterexample: after `create_deck()` and `deal_cards()` in a
2-player game the stock holds 21 cards (32 - 2x5 dealt - 1 discard), not the
20 the claim states. -/
theorem claim_C6_counterexample :
    (deal_cards (create_deck id (mkGame 2))).draw_pile.length = 21 ∧
    ¬ (deal_cards (create_deck id (mkGame 2))).draw_pile.length = 20 := by
  have h := deal2_shape id (fun l => rfl)
  exact ⟨h.2.2, by rw [h.2.2]; decide⟩

/-- C6 (amended): after `create_deck()` and `deal_cards()` the hands, draw
pile and discard pile together hold exactly 32 cards; in a 2-player game the
deal is 5/5 with 1 discard card and 21 cards left in stock; and every
`play_card`, `draw_card` (successful or failed) and every guarded
`_refresh_draw_pile` call (the code only calls it with an empty draw pile)
preserves the 32-card total. -/
theorem claim_C6_amended (s : List Card → List Card)
    (hlen : ∀ l, (s l).length = l.length) (n : Int) (g : Game) (pi ci : Int)
    (hinv : g.players.length = g.num_players) :
    totalCards (deal_cards (create_deck s (mkGame n))) = 32 ∧
    (deal_cards (create_deck s (mkGame 2))).players.map List.length = [5, 5] ∧
    (deal_cards (create_deck s (mkGame 2))).discard_pile.length = 1 ∧
    (deal_cards (create_deck s (mkGame 2))).draw_pile.length = 21 ∧
    totalCards (play_card s g pi ci).2 = totalCards g ∧
    totalCards (draw_card s g pi).2 = totalCards g ∧
    (g.draw_pile = [] → totalCards (refreshDrawPile s g) = totalCards g) := by
  have hfd : freshDeck.length = 32 := by decide
  have h1 : totalCards (create_deck s (mkGame n)) = 32 := by
    simp [totalCards, create_deck, mkGame, hlen, hfd, List.map_replicate]
  obtain ⟨hp5, hd1, hd21⟩ := deal2_shape s hlen
  exact ⟨by rw [deal_cards_total, h1], hp5, hd1, hd21,
    play_card_total s hlen g pi ci hinv, draw_card_total s hlen g pi hinv,
    refresh_total s hlen g⟩

/-- C6 witness: the amended theorem at concrete inputs: the dealt 2-player
game totals 32 cards, and concrete play and draw calls preserve the total. -/
theorem claim_C6_witness :
    totalCards (deal_cards (create_deck id (mkGame 2))) = 32 ∧
    totalCards (play_card id sevenEx 0 0).2 = totalCards sevenEx ∧
    totalCards (draw_card id drawEx 0).2 = totalCards drawEx := by
  have ha := claim_C6_amended id (fun l => rfl) 2 sevenEx 0 0 rfl
  have hb := claim_C6_amended id (fun l => rfl) 2 drawEx 0 0 rfl
  exact ⟨ha.1, ha.2.2.2.2.1, hb.2.2.2.2.2.1⟩

/-- C7 counterexample: removing the occupant of seat 0 of `emptyHandEx`,
whose hand is empty although it holds the turn, changes nothing: the seat is
NOT added to the disconnected set and the turn is NOT advanced, contradicting
the claim's unconditional "adds the seat index to the disconnected set" and
its turn-advance biconditional. -/
theorem claim_C7_counterexample :
    handOf emptyHandEx 0 = [] ∧
    emptyHandEx.current_player = 0 ∧
    removePlayerGame emptyHandEx 0 [] = (emptyHandEx, []) ∧
    (0 : Nat) ∉ (removePlayerGame emptyHandEx 0 []).2 ∧
    (removePlayerGame emptyHandEx 0 []).1.current_player = 0 := by
  decide

/-- C7 (amended): removing a seat's occupant mid-round affects the game only
when that seat's hand is non-empty; in that case the hand is pushed reversed
onto the head side of the discard pile (so a non-empty discard pile keeps its
active tail card), the hand is emptied, no other hand changes, the seat is
added to the disconnected set, and `current_player` moves — to the next seat
with a non-empty hand — exactly when the removed seat held the turn. An
empty-handed leaver changes nothing (it is not even marked disconnected). -/
theorem claim_C7_amended (g : Game) (i : Nat) (disc : List Nat)
    (hi : i < g.players.length) :
    (handOf g i = [] → removePlayerGame g i disc = (g, disc)) ∧
    (handOf g i ≠ [] →
      handOf (removePlayerGame g i disc).1 i = [] ∧
      (removePlayerGame g i disc).1.discard_pile
        = (handOf g i).reverse ++ g.discard_pile ∧
      (g.discard_pile ≠ [] →
        (removePlayerGame g i disc).1.discard_pile.getLast? = g.discard_pile.getLast?) ∧
      (∀ j, j ∈ (removePlayerGame g i disc).2 ↔ (j = i ∨ j ∈ disc)) ∧
      (∀ t, t ≠ i → handOf (removePlayerGame g i disc).1 t = handOf g t) ∧
      (g.current_player ≠ i →
        (removePlayerGame g i disc).1.current_player = g.current_player) ∧
      (g.current_player = i →
        (removePlayerGame g i disc).1.current_player =
          get_next_active_player
            { g with players := g.players.set i []
                     discard_pile := (handOf g i).reverse ++ g.discard_pile } ∧
        ((∃ u, u < g.num_players ∧ (g.players.set i []).getD u [] ≠ []) →
          handOf g (removePlayerGame g i disc).1.current_player ≠ [] ∧
          (removePlayerGame g i disc).1.current_player ≠ i))) := by
  constructor
  · intro h
    unfold removePlayerGame
    rw [if_neg (not_not_intro h)]
  · intro h
    have heq : removePlayerGame g i disc =
        ((if g.current_player = i then
            next_turn { g with discard_pile := (handOf g i).reverse ++ g.discard_pile
                               players := g.players.set i [] }
          else { g with discard_pile := (handOf g i).reverse ++ g.discard_pile
                        players := g.players.set i [] }),
          (if disc.contains i then disc else i :: disc)) := by
      unfold removePlayerGame
      rw [if_pos h]
    set G1 : Game :=
      { g with discard_pile := (handOf g i).reverse ++ g.discard_pile
               players := g.players.set i [] } with hG1
    have hplayers : (removePlayerGame g i disc).1.players = g.players.set i [] := by
      rw [heq]
      dsimp only
      split <;> rfl
    have hdisc : (removePlayerGame g i disc).1.discard_pile
        = (handOf g i).reverse ++ g.discard_pile := by
      rw [heq]
      dsimp only
      split <;> rfl
    refine ⟨?_, hdisc, ?_, ?_, ?_, ?_, ?_⟩
    · show (removePlayerGame g i disc).1.players.getD i [] = []
      rw [hplayers, getD_set_self _ _ _ _ hi]
    · intro hd
      rw [hdisc, List.getLast?_append]
      obtain ⟨x, hx⟩ := Option.isSome_iff_exists.mp (List.getLast?_isSome.mpr hd)
      rw [hx]
      rfl
    · intro j
      rw [heq]
      dsimp only
      by_cases hc : disc.contains i
      · rw [if_pos hc]
        have him : i ∈ disc := (contains_mem_iff disc i).mp hc
        constructor
        · exact fun hj => Or.inr hj
        · intro hj
          cases hj with
          | inl hji => rw [hji]; exact him
          | inr hji => exact hji
      · rw [if_neg hc]
        simp [List.mem_cons]
    · intro t ht
      show (removePlayerGame g i disc).1.players.getD t [] = handOf g t
      rw [hplayers, getD_set_ne _ _ _ (fun hh => ht hh.symm)]
      rfl
    · intro hc
      rw [heq]
      dsimp only
      rw [if_neg hc]
    · intro hc
      have hcur : (removePlayerGame g i disc).1.current_player
          = get_next_active_player G1 := by
        rw [heq]
        dsimp only
        rw [if_pos hc]
        rfl
      refine ⟨hcur, ?_⟩
      intro hex
      obtain ⟨u, hu, hune⟩ := hex
      have hnp : 0 < G1.num_players := by
        show 0 < g.num_players
        omega
      have hne := get_next_active_nonempty G1 hnp ⟨u, hu, hune⟩
      have hlne : get_next_active_player G1 ≠ i := by
        intro hli
        rw [hli] at hne
        have : G1.players.getD i [] = [] := by
          show (g.players.set i []).getD i [] = []
          rw [getD_set_self _ _ _ _ hi]
        exact hne this
      rw [hcur]
      refine ⟨?_, hlne⟩
      have : G1.players.getD (get_next_active_player G1) []
          = g.players.getD (get_next_active_player G1) [] := by
        show (g.players.set i []).getD _ [] = _
        rw [getD_set_ne _ _ _ (fun hh => hlne hh.symm)]
      rw [this] at hne
      exact hne

/-- C7 witness: the amended theorem at `removeEx`: removing seat 0 (one card,
holding the turn) empties the hand, moves the card under the old active card,
marks the seat disconnected, and hands the turn to seat 1. -/
theorem claim_C7_witness :
    handOf (removePlayerGame removeEx 0 []).1 0 = [] ∧
    (removePlayerGame removeEx 0 []).1.discard_pile.getLast?
      = removeEx.discard_pile.getLast? ∧
    (0 ∈ (removePlayerGame removeEx 0 []).2) ∧
    (removePlayerGame removeEx 0 []).1.current_player = 1 := by
  have h := (claim_C7_amended removeEx 0 [] (by decide)).2 (by decide)
  obtain ⟨h1, h2, h3, h4, h5, h6, h7⟩ := h
  refine ⟨h1, h3 (by decide), (h4 0).mpr (Or.inl rfl), ?_⟩
  rw [(h7 rfl).1]
  decide

/-- C8 counterexample: connection 2 asks for the name "abc", which is only
held by the in-room connection 1 — no currently-in-lobby connection holds it
and the length is in range, yet the request is rejected with "Name already
taken": uniqueness is checked against ALL connected names, not just lobby
ones. -/
theorem claim_C8_counterexample :
    (handle_set_name inRoomSt 2 "abc".toList).2 = Reply.err "Name already taken".toList ∧
    (handle_set_name inRoomSt 2 "abc".toList).1 = inRoomSt ∧
    (3 ≤ (pyStrip "abc".toList).length ∧ (pyStrip "abc".toList).length ≤ 20) ∧
    (∀ p, p ∈ inRoomSt.client_names → p.1 ∈ inRoomSt.lobby_clients
      → p.2 ≠ pyStrip "abc".toList) := by
  decide

/-- The three outcomes of the `set_name` branch. -/
theorem handle_set_name_eq_badlen (st : ServerSt) (sock : Nat) (raw : List Char)
    (h : ¬ (3 ≤ (pyStrip raw).length ∧ (pyStrip raw).length ≤ 20)) :
    handle_set_name st sock raw
      = (st, Reply.err "Name must be 3-20 characters long".toList) := by
  unfold handle_set_name
  simp only []
  rw [if_pos h]

theorem handle_set_name_eq_taken (st : ServerSt) (sock : Nat) (raw : List Char)
    (hl : 3 ≤ (pyStrip raw).length ∧ (pyStrip raw).length ≤ 20)
    (hm : (namesOf st.client_names).contains (pyStrip raw) = true) :
    handle_set_name st sock raw = (st, Reply.err "Name already taken".toList) := by
  unfold handle_set_name
  simp only []
  rw [if_neg (not_not_intro hl), if_pos hm]

theorem handle_set_name_eq_ok (st : ServerSt) (sock : Nat) (raw : List Char)
    (hl : 3 ≤ (pyStrip raw).length ∧ (pyStrip raw).length ≤ 20)
    (hm : ¬ (namesOf st.client_names).contains (pyStrip raw) = true) :
    handle_set_name st sock raw
      = ({ st with client_names := setAssoc st.client_names sock (pyStrip raw) },
         Reply.nameSet (pyStrip raw)) := by
  unfold handle_set_name
  simp only []
  rw [if_neg (not_not_intro hl), if_neg hm]

/-- C8 (amended): a `set_name` request is rejected (with an error reply and
no state change) iff the stripped name's length is outside 3..20 or the name
is already held by ANY currently-connected named connection (in the lobby or
in a room, i.e. any entry of `server.client_names`); otherwise the name is
recorded for the socket and `name_set` is sent. Two connections claiming the
same name sequentially therefore leave the second nameless with a name-taken
error. -/
theorem claim_C8_amended (st : ServerSt) (sock : Nat) (raw : List Char) :
    ((∃ m, (handle_set_name st sock raw).2 = Reply.err m) ↔
      ((pyStrip raw).length < 3 ∨ 20 < (pyStrip raw).length ∨
        pyStrip raw ∈ namesOf st.client_names)) ∧
    ((∃ m, (handle_set_name st sock raw).2 = Reply.err m) →
      (handle_set_name st sock raw).1 = st) ∧
    (¬ ((pyStrip raw).length < 3 ∨ 20 < (pyStrip raw).length ∨
        pyStrip raw ∈ namesOf st.client_names) →
      (handle_set_name st sock raw).1.client_names
        = setAssoc st.client_names sock (pyStrip raw) ∧
      (handle_set_name st sock raw).1.lobby_clients = st.lobby_clients ∧
      (handle_set_name st sock raw).2 = Reply.nameSet (pyStrip raw)) := by
  by_cases hl : 3 ≤ (pyStrip raw).length ∧ (pyStrip raw).length ≤ 20
  · by_cases hm : (namesOf st.client_names).contains (pyStrip raw) = true
    · rw [handle_set_name_eq_taken st sock raw hl hm]
      have hmem : pyStrip raw ∈ namesOf st.client_names := (contains_mem_iff _ _).mp hm
      refine ⟨⟨fun _ => Or.inr (Or.inr hmem), fun _ => ⟨_, rfl⟩⟩, fun _ => rfl, ?_⟩
      intro hno
      exact absurd (Or.inr (Or.inr hmem)) hno
    · rw [handle_set_name_eq_ok st sock raw hl hm]
      have hnomem : pyStrip raw ∉ namesOf st.client_names := fun hmem =>
        hm ((contains_mem_iff _ _).mpr hmem)
      refine ⟨⟨?_, ?_⟩, ?_, fun _ => ⟨rfl, rfl, rfl⟩⟩
      · intro ⟨m, hrm⟩
        simp at hrm
      · intro hbad
        rcases hbad with hb | hb | hb
        · omega
        · omega
        · exact absurd hb hnomem
      · intro ⟨m, hrm⟩
        simp at hrm
  · rw [handle_set_name_eq_badlen st sock raw hl]
    refine ⟨⟨fun _ => ?_, fun _ => ⟨_, rfl⟩⟩, fun _ => rfl, ?_⟩
    · omega
    · intro hno
      push_neg at hno
      omega

end Sedma
